import Mathlib

/-!
Verification development for the CorePlanX solver service
(src/tools/solver_service/app.py).

The service is a request-scoped combinatorial assignment engine.  The
external constraint engine (ortools CP-SAT) is modelled as an abstract
oracle: a function from the model the code hands to the engine to an
outcome consisting of a status name, an acceptance flag (status in
(OPTIMAL, FEASIBLE)) and a 0/1 valuation of the created decision
variables.  Everything else (weighting policy, model building, chain
reconstruction, status aggregation, response assembly) is embedded
directly from the source.

Numeric conventions: Python ints are `Int`.  Python floats are modelled
exactly: a finite float carries the exact rational value (structure
`Frac`) of a binary64 number, conversion of a decimal string or an int
to a float rounds to the nearest binary64 (`toDouble`), the special
values are the extra constructors of `PyFloat`, and the builtin `round`
is round-half-to-even on the exact value — which on binary64 values
agrees with CPython.  An uncaught exception escaping the endpoint
(such as `round` of an infinite or NaN value) is modelled as `none`.
-/

/-- Exact fraction `num / den`, the model of a Python float value. -/
structure Frac where
  num : Int
  den : Nat
  deriving DecidableEq, Repr

/-- Model of a value found in a candidate parameter bag (`Dict[str, Any]`).
`pnone` models Python `None` (and an absent key, via `dictGet`); `pnum`
models an int or float; `pstr` a string; `pother` any other object
(which `coerce_number` rejects). -/
inductive PValue where
  | pnone
  | pnum (value : Frac)
  | pstr (s : String)
  | pother
  deriving DecidableEq, Repr

/-- Embeds the pydantic model `SolverOptions` (app.py lines 10-16). -/
structure SolverOptions where
  max_per_service_type : Int := 1
  max_per_service : Option Int := none
  weight_key : String := "gapMinutes"
  default_weight : Int := 1
  time_limit_seconds : Option Frac := none
  random_seed : Option Int := none
  deriving DecidableEq, Repr

/-- Embeds the pydantic model `SolverCandidate` (app.py lines 19-23); the
open parameter bag is an association list. -/
structure SolverCandidate where
  id : String
  templateId : String
  type : String
  params : List (String × PValue) := []
  deriving DecidableEq, Repr

/-- Models `params.get(key)`: the value stored under `key`, or `pnone`
when the key is absent. -/
def dictGet (params : List (String × PValue)) (key : String) : PValue :=
  match List.lookup key params with
  | some v => v
  | none => PValue.pnone

/-- Value of a digit string read in base 10. -/
def digitsToNat (cs : List Char) : Nat :=
  cs.foldl (fun n c => n * 10 + (c.toNat - 48)) 0

/-- Models Python `str.strip()`: drop leading and trailing whitespace. -/
def stripWs (cs : List Char) : List Char :=
  ((cs.dropWhile Char.isWhitespace).reverse.dropWhile Char.isWhitespace).reverse

/-- Value of a Python float: the exact rational value of a binary64
number, or one of the special values infinity, negative infinity, NaN. -/
inductive PyFloat where
  | finite (value : Frac)
  | inf
  | neginf
  | nan
  deriving DecidableEq, Repr

/-- Round-half-to-even of the exact fraction `num / den` (den positive):
the integer nearest to the fraction, ties going to the even integer. -/
def roundHalfEven (num den : Int) : Int :=
  let q := Int.fdiv num den
  let r := num - den * q
  if 2 * r < den then q
  else if den < 2 * r then q + 1
  else if q % 2 = 0 then q else q + 1

/-- Models the Python builtin `round(x)` on the exact value of a finite
float: round-half-to-even.  On the exact rational carried by a binary64
number this agrees with CPython, which rounds the binary value. -/
def pyRound (f : Frac) : Int :=
  roundHalfEven f.num f.den

/-- Number of halvings to reach 1, i.e. `floor(log2 n)` for positive `n`.
The first argument is fuel; `n` itself is always enough fuel. -/
def bitLenAux : Nat → Nat → Nat
  | 0, _ => 0
  | fuel + 1, n => if n ≤ 1 then 0 else bitLenAux fuel (n / 2) + 1

/-- `floor(log2 n)` for `n ≥ 1` (and 0 at 0). -/
def bitLen (n : Nat) : Nat :=
  bitLenAux n n

/-- Decides `2 ^ e ≤ n / d` for positive naturals `n`, `d` and an
arbitrary integer exponent, by cross multiplication. -/
def ratGePow2 (n d : Nat) (e : Int) : Bool :=
  if 0 ≤ e then decide (d * 2 ^ e.toNat ≤ n) else decide (d ≤ n * 2 ^ (-e).toNat)

/-- Exponent of the leading binary digit of `n / d` for positive `n`,
`d`: the unique `e` with `2 ^ e ≤ n / d < 2 ^ (e + 1)`. -/
def mantExp (n d : Nat) : Int :=
  let e0 : Int := (bitLen n : Int) - (bitLen d : Int)
  if ratGePow2 n d e0 then e0 else e0 - 1

/-- Nearest binary64 value to the positive fraction `n / d`
(round-to-nearest, ties-to-even), following IEEE 754: a 53-bit mantissa,
gradual underflow below `2 ^ (-1022)` with the least exponent
`2 ^ (-1074)`, and overflow to infinity at or above `2 ^ 1024` (only
reachable when the scaling exponent is nonnegative, since otherwise the
rounded mantissa stays below `2 ^ 53`).  This is the rounding CPython applies
when converting a decimal string or an int to a float. -/
def toDoublePos (n d : Nat) : PyFloat :=
  let ftop := mantExp n d
  let e : Int := max (ftop - 52) (-1074)
  let sn : Nat := if 0 ≤ e then n else n * 2 ^ (-e).toNat
  let sd : Nat := if 0 ≤ e then d * 2 ^ e.toNat else d
  let m : Int := roundHalfEven (sn : Int) (sd : Int)
  let overflow : Bool :=
    if 0 ≤ e then decide (2 ^ 1024 ≤ m.toNat * 2 ^ e.toNat) else false
  if overflow then PyFloat.inf
  else PyFloat.finite (if 0 ≤ e then ⟨m * (2 ^ e.toNat : Nat), 1⟩ else ⟨m, 2 ^ (-e).toNat⟩)

/-- Nearest binary64 to an exact rational of either sign: models the
conversion inside `float(value)`.  On a value that already is a binary64
number this is the identity. -/
def toDouble (f : Frac) : PyFloat :=
  if f.den = 0 then PyFloat.nan
  else if f.num = 0 then PyFloat.finite ⟨0, 1⟩
  else if 0 < f.num then toDoublePos f.num.toNat f.den
  else
    match toDoublePos (-f.num).toNat f.den with
    | PyFloat.finite q => PyFloat.finite ⟨-q.num, q.den⟩
    | PyFloat.inf => PyFloat.neginf
    | PyFloat.neginf => PyFloat.inf
    | PyFloat.nan => PyFloat.nan

/-- Negate a float value, used to apply a leading minus sign. -/
def pyNeg : PyFloat → PyFloat
  | PyFloat.finite q => PyFloat.finite ⟨-q.num, q.den⟩
  | PyFloat.inf => PyFloat.neginf
  | PyFloat.neginf => PyFloat.inf
  | PyFloat.nan => PyFloat.nan

/-- Unsigned decimal mantissa: `digits`, `digits.digits`, `digits.` or
`.digits`, with at least one digit; yields `(a, k)` with value
`a / 10 ^ k`. -/
def parseDecimalK (cs : List Char) : Option (Nat × Nat) :=
  let intPart := cs.takeWhile Char.isDigit
  let rest := cs.dropWhile Char.isDigit
  match rest with
  | [] => if intPart.isEmpty then none else some (digitsToNat intPart, 0)
  | c :: frac =>
    if c == '.' && frac.all Char.isDigit && !(intPart.isEmpty && frac.isEmpty) then
      some (digitsToNat intPart * (10 ^ frac.length : Nat) + digitsToNat frac, frac.length)
    else none

/-- Exponent part after `e`/`E`: an optionally signed digit string. -/
def parseExpCore (cs : List Char) : Option Int :=
  match cs with
  | '+' :: rest => if rest ≠ [] ∧ rest.all Char.isDigit then some (digitsToNat rest : Int) else none
  | '-' :: rest => if rest ≠ [] ∧ rest.all Char.isDigit then some (-(digitsToNat rest : Int)) else none
  | _ => if cs ≠ [] ∧ cs.all Char.isDigit then some (digitsToNat cs : Int) else none

/-- Value of `a / 10 ^ k * 10 ^ E` as a binary64, with shortcuts that
settle certain overflow (at least `10 ^ 309`, beyond the largest finite
binary64) and certain underflow (below `10 ^ (-325)`, which rounds to
zero) without building astronomic powers; `bitLen a / 3 + 1` bounds the
decimal digit count of `a`. -/
def decTimesPow10 (a k : Nat) (E : Int) : PyFloat :=
  if a = 0 then PyFloat.finite ⟨0, 1⟩
  else
    let D : Int := (bitLen a : Int) / 3 + 1
    if 309 ≤ E - k then PyFloat.inf
    else if D + (E - k) ≤ -325 then PyFloat.finite ⟨0, 1⟩
    else
      let e2 := E - (k : Int)
      if 0 ≤ e2 then toDoublePos (a * 10 ^ e2.toNat) 1
      else toDoublePos a (10 ^ (-e2).toNat)

/-- Checks the CPython underscore rule for numeric strings: every
underscore must have a decimal digit immediately on both sides. -/
def underscoresOkAux (prev : Char) : List Char → Bool
  | [] => true
  | c :: rest =>
    if c == '_' then
      (prev.isDigit && (match rest with | [] => false | r :: _ => r.isDigit)) &&
        underscoresOkAux c rest
    else underscoresOkAux c rest

/-- Underscore validity for a sign-free numeric body. -/
def underscoresOk : List Char → Bool
  | [] => true
  | c :: rest => !(c == '_') && underscoresOkAux c rest

/-- Sign-free, underscore-free numeric body: mantissa with optional
decimal exponent, converted to the nearest binary64. -/
def parseMagnitude (cs : List Char) : Option PyFloat :=
  let mant := cs.takeWhile (fun c => !(c == 'e' || c == 'E'))
  let rest := cs.dropWhile (fun c => !(c == 'e' || c == 'E'))
  match rest with
  | [] => (parseDecimalK mant).map (fun p => decTimesPow10 p.1 p.2 0)
  | _ :: expPart =>
    match parseDecimalK mant, parseExpCore expPart with
    | some p, some e => some (decTimesPow10 p.1 p.2 e)
    | _, _ => none

/-- Models the Python builtin `float(s)` on strings: strip surrounding
whitespace; an optional sign; the case-insensitive keywords `inf`,
`infinity` and `nan`; otherwise a decimal literal with optional
fractional part, optional decimal exponent and CPython underscore
grouping, converted to the nearest binary64 (overflowing literals give
infinity, as `float("1e400")` does).  A string matching none of these
raises ValueError, modelled as `none`. -/
def parseFloat (s : String) : Option PyFloat :=
  let cs := stripWs s.data
  let signed : Bool × List Char :=
    match cs with
    | '+' :: rest => (false, rest)
    | '-' :: rest => (true, rest)
    | _ => (false, cs)
  let body := signed.2
  let lower := body.map Char.toLower
  if lower = "inf".data ∨ lower = "infinity".data then
    some (if signed.1 then PyFloat.neginf else PyFloat.inf)
  else if lower = "nan".data then some PyFloat.nan
  else if underscoresOk body then
    match parseMagnitude (body.filter (fun c => !(c == '_'))) with
    | some v => some (if signed.1 then pyNeg v else v)
    | none => none
  else none

/-- Embeds `coerce_number` (app.py lines 346-354): an int or float value
goes through `float(value)`, i.e. conversion to the nearest binary64
(the identity on floats; an overlarge int raises OverflowError there,
surfacing as an infinite value that `compute_weight` then fails on); a
string is stripped and parsed as a float with ValueError caught;
everything else (including `None`) gives `None`. -/
def coerce_number : PValue → Option PyFloat
  | PValue.pnum f => some (toDouble f)
  | PValue.pstr s => parseFloat s
  | _ => none

/-- Embeds `compute_weight` (app.py lines 334-343): look up
`options.weight_key` in the parameter bag; if absent and the key is not
`gapMinutes`, fall back to `gapMinutes`; if still absent, to
`durationMinutes`; coerce; when coercion yields nothing use
`default_weight`; clamp with `max 1` after rounding.  The result `none`
models an uncaught exception ending the request: `round` of an infinite
or NaN coerced value raises OverflowError or ValueError outside the
`try` of `coerce_number` (only `float` of a string is guarded, and only
against ValueError). -/
def compute_weight (candidate : SolverCandidate) (options : SolverOptions) : Option Int :=
  let v0 := dictGet candidate.params options.weight_key
  let v1 :=
    if v0 = PValue.pnone ∧ options.weight_key ≠ "gapMinutes" then
      dictGet candidate.params "gapMinutes"
    else v0
  let v2 := if v1 = PValue.pnone then dictGet candidate.params "durationMinutes" else v1
  match coerce_number v2 with
  | none => some (max 1 options.default_weight)
  | some (PyFloat.finite q) => some (max 1 (pyRound q))
  | some _ => none

/-- Embeds the pydantic model `SolverGroupActivity` (app.py lines 26-29). -/
structure SolverGroupActivity where
  id : String
  startMs : Int
  endMs : Int
  deriving DecidableEq, Repr

/-- Embeds the pydantic model `SolverGroupEdge` (app.py lines 32-38). -/
structure SolverGroupEdge where
  fromId : String
  toId : String
  gapMinutes : Int
  travelMinutes : Int
  missingTravel : Option Bool := none
  missingLocation : Option Bool := none
  deriving DecidableEq, Repr

/-- Embeds the pydantic model `SolverGroup` (app.py lines 41-47). -/
structure SolverGroup where
  id : String
  ownerId : String
  ownerKind : String
  dayKey : String
  activities : List SolverGroupActivity
  edges : List SolverGroupEdge
  deriving DecidableEq, Repr

/-- Constant from app.py line 242. -/
def EDGE_BASE_WEIGHT : Int := 100000

/-- Constant from app.py line 243. -/
def MISSING_TRAVEL_PENALTY : Int := 50000

/-- Constant from app.py line 244. -/
def MISSING_LOCATION_PENALTY : Int := 50000

/-- Embeds `compute_edge_weight` (app.py lines 247-253).  A flag equal to
`some true` is the truthy case of the Python `if edge.missingTravel:`
test; `None` and `False` are falsy. -/
def compute_edge_weight (edge : SolverGroupEdge) : Int :=
  let penalty := edge.gapMinutes + edge.travelMinutes
  let penalty :=
    if edge.missingTravel = some true then penalty + MISSING_TRAVEL_PENALTY else penalty
  let penalty :=
    if edge.missingLocation = some true then penalty + MISSING_LOCATION_PENALTY else penalty
  max 1 (EDGE_BASE_WEIGHT - penalty)

/-- Embeds `aggregate_status` (app.py lines 256-263). -/
def aggregate_status (statuses : List String) : String :=
  if statuses.isEmpty then "OPTIMAL"
  else if statuses.any (· == "INFEASIBLE") then "INFEASIBLE"
  else if statuses.any (· == "FEASIBLE") then "FEASIBLE"
  else "OPTIMAL"

/-- Successor map built from the selected transitions (app.py lines
212-216): the Python loop `successors[edge.fromId] = edge.toId`, later
edges overwriting earlier ones; modelled as an association list searched
front to back after reversal, so that the last write wins. -/
def succOf (selected : List SolverGroupEdge) : List (String × String) :=
  (selected.map fun e => (e.fromId, e.toId)).reverse

/-- Predecessor map, `predecessors[edge.toId] = edge.fromId` (app.py
line 216). -/
def predOf (selected : List SolverGroupEdge) : List (String × String) :=
  (selected.map fun e => (e.toId, e.fromId)).reverse

/-- Embeds the inner while loop of `build_duties` (app.py lines 225-230):
follow successor links from `cursor`, stopping at an empty id (falsy in
Python), at an already visited id, or when no successor entry exists.
Each appended id is also added to the visited set.  The while loop of
the source is modelled with explicit fuel; `build_duties` supplies fuel
that is never exhausted (see the termination theorem). -/
def walk (succ : List (String × String)) : Nat → List String → String → List String × List String
  | 0, visited, _ => ([], visited)
  | fuel + 1, visited, cursor =>
    if cursor = "" ∨ cursor ∈ visited then ([], visited)
    else
      match List.lookup cursor succ with
      | none => ([cursor], cursor :: visited)
      | some nxt =>
        let r := walk succ fuel (cursor :: visited) nxt
        (cursor :: r.1, r.2)

/-- First pass of `build_duties` (app.py lines 218-232): for each
activity id in canonical order that is unvisited and has no predecessor,
walk the successor chain and record the path as a duty when nonempty. -/
def firstPass (succ pred : List (String × String)) (fuel : Nat) :
    List String → List String → List (List String) → List (List String) × List String
  | [], visited, duties => (duties, visited)
  | aid :: rest, visited, duties =>
    if aid ∈ visited then firstPass succ pred fuel rest visited duties
    else if (List.lookup aid pred).isSome then firstPass succ pred fuel rest visited duties
    else
      let r := walk succ fuel visited aid
      firstPass succ pred fuel rest r.2 (if r.1.isEmpty then duties else duties ++ [r.1])

/-- Second pass of `build_duties` (app.py lines 234-237): every id still
unvisited becomes a singleton duty. -/
def secondPass : List String → List String → List (List String) → List (List String)
  | [], _, duties => duties
  | aid :: rest, visited, duties =>
    if aid ∈ visited then secondPass rest visited duties
    else secondPass rest (aid :: visited) (duties ++ [[aid]])

/-- `build_duties` with explicit fuel for the successor walks. -/
def build_dutiesAux (fuel : Nat) (ordered_ids : List String) (selected : List SolverGroupEdge) :
    List (List String) :=
  let r := firstPass (succOf selected) (predOf selected) fuel ordered_ids [] []
  secondPass ordered_ids r.2 r.1

/-- Embeds `build_duties` (app.py lines 209-239).  The fuel value
`selected.length + 1` exceeds the number of successor entries, so the
fuel never runs out (proved in the termination theorem). -/
def build_duties (ordered_ids : List String) (selected : List SolverGroupEdge) :
    List (List String) :=
  build_dutiesAux (selected.length + 1) ordered_ids selected

/-- Number of successor keys not yet visited; the measure that bounds the
inner while loop of `build_duties`. -/
def countUnvisited (succ : List (String × String)) (visited : List String) : Nat :=
  (succ.map Prod.fst).countP (fun k => decide (k ∉ visited))

/-- Sort key of an activity: the Python tuple `(startMs, endMs, id)`,
compared lexicographically, as in `sorted(activities, key=...)`
(app.py lines 154-156). -/
def akey (a : SolverGroupActivity) : Int ×ₗ (Int ×ₗ String) :=
  toLex (a.startMs, toLex (a.endMs, a.id))

/-- Strict comparison used by the canonical activity sort. -/
def activityLt (a b : SolverGroupActivity) : Bool :=
  decide (akey a < akey b)

/-- Stable insertion into a sorted list: `x` goes after every element
strictly below it and before the rest, so elements with equal keys keep
their original relative order, as with the stable Python `sorted`. -/
def insertActivity (x : SolverGroupActivity) :
    List SolverGroupActivity → List SolverGroupActivity
  | [] => [x]
  | y :: ys => if activityLt y x then y :: insertActivity x ys else x :: y :: ys

/-- Models `sorted(activities, key=lambda entry: (entry.startMs,
entry.endMs, entry.id))` (app.py lines 154-156): stable ascending sort
by the lexicographic key. -/
def sortActivities : List SolverGroupActivity → List SolverGroupActivity
  | [] => []
  | x :: xs => insertActivity x (sortActivities xs)

/-- Model handed to the external engine for one mode-b group: one
boolean decision variable per filtered transition (in filter order), the
activity ids generating the in/out-degree constraints, the objective
weights, and the solver options (time limit, random seed). -/
structure GroupModel where
  orderedIds : List String
  edges : List SolverGroupEdge
  weights : List Int
  opts : SolverOptions

/-- Outcome returned by the external engine: the status name, whether
the status is one of (OPTIMAL, FEASIBLE), and the 0/1 valuation of the
decision variables by creation index. -/
structure EngineOutcome where
  statusName : String
  ok : Bool
  assignment : Nat → Bool

/-- One singleton duty per activity id, the degraded output of
`solve_group`. -/
def singletonDuties (orderedIds : List String) : List (List String) :=
  orderedIds.map (fun i => [i])

/-- Embeds `solve_group` after the endpoint filter (app.py lines
163-206): when no transition variable remains the group degrades to
singleton duties with status OPTIMAL (line 188); otherwise the engine is
consulted; a status outside (OPTIMAL, FEASIBLE) degrades to singleton
duties (line 200); else the duties are rebuilt from the transitions
whose variable is 1 (lines 202-206). -/
def solve_group_core (engine : GroupModel → EngineOutcome) (orderedIds : List String)
    (filtered : List SolverGroupEdge) (options : SolverOptions) :
    List (List String) × Nat × Nat × String :=
  if filtered.isEmpty then (singletonDuties orderedIds, 0, 0, "OPTIMAL")
  else
    let weights := filtered.map compute_edge_weight
    let out := engine ⟨orderedIds, filtered, weights, options⟩
    if out.ok then
      let selected := ((filtered.enum).filter (fun p => out.assignment p.1)).map Prod.snd
      (build_duties orderedIds selected, filtered.length, selected.length, out.statusName)
    else (singletonDuties orderedIds, filtered.length, 0, out.statusName)

/-- Embeds `solve_group` (app.py lines 147-206): a group without
activities reports NO_ACTIVITIES; a group without edges produces
singleton duties with status OPTIMAL and no decision variables;
otherwise transitions whose endpoints are not both in the activity id
set are dropped and the remaining model is solved. -/
def solve_group (engine : GroupModel → EngineOutcome) (group : SolverGroup)
    (options : SolverOptions) : List (List String) × Nat × Nat × String :=
  if group.activities.isEmpty then ([], 0, 0, "NO_ACTIVITIES")
  else
    let orderedIds := (sortActivities group.activities).map SolverGroupActivity.id
    if group.edges.isEmpty then (singletonDuties orderedIds, 0, 0, "OPTIMAL")
    else
      solve_group_core engine orderedIds
        (group.edges.filter
          (fun e => decide (e.fromId ∈ orderedIds) && decide (e.toId ∈ orderedIds)))
        options

/-- Embeds the pydantic model `SolverProblem` (app.py lines 50-51). -/
structure SolverProblem where
  groups : List SolverGroup := []

/-- Embeds the pydantic model `SolverRequest` (app.py lines 54-59). -/
structure SolverRequest where
  rulesetId : String
  rulesetVersion : String
  candidates : List SolverCandidate
  problem : Option SolverProblem := none
  options : SolverOptions := {}

/-- Embeds the pydantic model `SolverStats` (app.py lines 62-65). -/
structure SolverStats where
  totalCandidates : Nat
  selectedCandidates : Nat
  groupCount : Nat
  deriving DecidableEq, Repr

/-- Mode-a slice of the pydantic model `SolverResponse` (app.py lines
76-82): the fields produced by `solve_candidates` (`dutyGroups` is not
set there and stays empty). -/
structure CandResponse where
  summary : String
  selectedIds : List String
  score : Option Int
  status : String
  stats : SolverStats
  deriving DecidableEq, Repr

/-- Outcome returned by the external engine in mode a: status name,
acceptance flag (status in (OPTIMAL, FEASIBLE)), 0/1 valuation per
candidate index, and the achieved objective value. -/
structure CandOutcome where
  statusName : String
  ok : Bool
  assignment : Nat → Bool
  objective : Int

/-- Models `str(candidate.params.get("serviceId") or "_")` (app.py line
283): falsy values (absent key, None, empty string, numeric zero) give
the opaque placeholder; a nonempty string passes through; a nonzero
number is rendered; other truthy objects are rendered as the
placeholder, their Python `str` form being opaque to the grouping logic
modelled here. -/
def serviceIdOf (candidate : SolverCandidate) : String :=
  match dictGet candidate.params "serviceId" with
  | PValue.pstr s => if s = "" then "_" else s
  | PValue.pnum f => if f.num = 0 then "_" else toString f.num ++ "/" ++ toString f.den
  | _ => "_"

/-- Grouping key of a candidate: the pair (serviceId, type) (app.py
line 284). -/
def candKey (candidate : SolverCandidate) : String × String :=
  (serviceIdOf candidate, candidate.type)

/-- Embeds `build_summary` (app.py lines 357-358). -/
def build_summary (status : String) (selected total : Nat) : String :=
  toString selected ++ " of " ++ toString total ++ " candidates selected (status: " ++
    status ++ ")."

/-- Number of selected candidates carrying grouping key `k` under a
valuation: the quantity that the constraint `sum(vars in group) ≤ limit`
(app.py lines 288-290) bounds for the group of `k`. -/
def typeGroupCount (cands : List SolverCandidate) (assignment : Nat → Bool)
    (k : String × String) : Nat :=
  ((cands.enum).filter (fun p => decide (candKey p.2 = k) && assignment p.1)).length

/-- Embeds `solve_candidates` (app.py lines 266-332): an empty candidate
list short-circuits to NO_CANDIDATES; otherwise one decision variable
per candidate is created, the engine is consulted, ids of candidates
whose variable is 1 are returned when the status is OPTIMAL or FEASIBLE
(else no ids), the score is the objective value when the selection is
nonempty (else null), and the stats count candidates, selected ids and
distinct grouping keys. -/
def solve_candidates (out : CandOutcome) (request : SolverRequest) : CandResponse :=
  if request.candidates.isEmpty then
    { summary := "No candidates provided.", selectedIds := [], score := none,
      status := "NO_CANDIDATES", stats := ⟨0, 0, 0⟩ }
  else
    let selected_ids :=
      if out.ok then
        ((request.candidates.enum).filter (fun p => out.assignment p.1)).map (fun p => p.2.id)
      else []
    let score := if selected_ids.isEmpty then none else some out.objective
    { summary := build_summary out.statusName selected_ids.length request.candidates.length,
      selectedIds := selected_ids,
      score := score,
      status := out.statusName,
      stats := ⟨request.candidates.length, selected_ids.length,
        ((request.candidates.map candKey).dedup).length⟩ }

/-- Concrete engine outcome used to witness the capacity theorem. -/
def c7out : CandOutcome := ⟨"OPTIMAL", true, fun _ => false, 0⟩

/-- Concrete mode-a request used to witness the capacity theorem. -/
def c7req : SolverRequest := ⟨"rs", "v1", [⟨"c1", "t1", "X", []⟩], none, {}⟩

/-- C4: evaluation of the embedded weighting.  The fallback chain and
the two spec examples behave as claimed (strings "15" and an empty bag
with defaultWeight 3; a custom weightKey falling back to gapMinutes and
then durationMinutes; a malformed string falling back to defaultWeight;
the underscore literal "1_000" and the binary64 rounding of
"2.5000000000000001" follow CPython), but on a numeric string denoting
an infinite or NaN value — "inf", "nan", or the overflowing "1e400" —
the coercion succeeds and `round` then raises an uncaught OverflowError
or ValueError, ending the request instead of yielding a weight: the
`none` results below are the failing inputs of the code bug. -/
theorem compute_weight_examples :
    compute_weight ⟨"c1", "t1", "X", [("gapMinutes", PValue.pstr "inf")]⟩ {} = none ∧
    compute_weight ⟨"c2", "t1", "X", [("gapMinutes", PValue.pstr "nan")]⟩ {} = none ∧
    compute_weight ⟨"c3", "t1", "X", [("gapMinutes", PValue.pstr "1e400")]⟩ {} = none ∧
    compute_weight ⟨"c4", "t1", "X", [("gapMinutes", PValue.pstr "15")]⟩ {} = some 15 ∧
    compute_weight ⟨"c5", "t1", "X", []⟩ { default_weight := 3 } = some 3 ∧
    compute_weight ⟨"c6", "t1", "X", [("gapMinutes", PValue.pstr "1_000")]⟩ {} = some 1000 ∧
    compute_weight ⟨"c7", "t1", "X", [("gapMinutes", PValue.pstr "2.5000000000000001")]⟩ {} =
      some 2 ∧
    compute_weight ⟨"c8", "t1", "X", [("gapMinutes", PValue.pstr "abc")]⟩ {} = some 1 ∧
    compute_weight ⟨"c9", "t1", "X", [("gapMinutes", PValue.pnum ⟨7, 1⟩)]⟩
      { weight_key := "foo" } = some 7 ∧
    compute_weight ⟨"c10", "t1", "X", [("durationMinutes", PValue.pnum ⟨4, 1⟩)]⟩ {} = some 4 := by
  refine ⟨by decide, by decide, by decide, by decide, by decide, by decide, by decide,
    by decide, by decide, by decide⟩

theorem anyBeqIffMem (l : List String) (s : String) : (l.any (· == s) = true) ↔ s ∈ l := by
  simp [List.any_eq_true]

theorem aggregate_status_eq_ite (statuses : List String) :
    aggregate_status statuses =
      if "INFEASIBLE" ∈ statuses then "INFEASIBLE"
      else if "FEASIBLE" ∈ statuses then "FEASIBLE"
      else "OPTIMAL" := by
  by_cases h1 : "INFEASIBLE" ∈ statuses
  · have hne : statuses.isEmpty = false := by
      cases statuses
      · exact absurd h1 (List.not_mem_nil _)
      · rfl
    have h1b : statuses.any (· == "INFEASIBLE") = true := (anyBeqIffMem _ _).mpr h1
    simp [aggregate_status, hne, h1b, h1]
  · have h1b : statuses.any (· == "INFEASIBLE") = false := by
      rw [Bool.eq_false_iff]
      exact fun hh => h1 ((anyBeqIffMem _ _).mp hh)
    by_cases h2 : "FEASIBLE" ∈ statuses
    · have hne : statuses.isEmpty = false := by
        cases statuses
        · exact absurd h2 (List.not_mem_nil _)
        · rfl
      have h2b : statuses.any (· == "FEASIBLE") = true := (anyBeqIffMem _ _).mpr h2
      simp [aggregate_status, hne, h1b, h2b, h1, h2]
    · have h2b : statuses.any (· == "FEASIBLE") = false := by
        rw [Bool.eq_false_iff]
        exact fun hh => h2 ((anyBeqIffMem _ _).mp hh)
      by_cases hemp : statuses.isEmpty
      · simp [aggregate_status, hemp, h1, h2]
      · simp only [Bool.not_eq_true] at hemp
        simp [aggregate_status, hemp, h1b, h2b, h1, h2]

/-- C3: the aggregated mode-b status is INFEASIBLE when some group status
is INFEASIBLE, otherwise FEASIBLE when some group status is FEASIBLE,
otherwise OPTIMAL. -/
theorem aggregate_status_spec (statuses : List String) :
    aggregate_status statuses =
      if "INFEASIBLE" ∈ statuses then "INFEASIBLE"
      else if "FEASIBLE" ∈ statuses then "FEASIBLE"
      else "OPTIMAL" :=
  aggregate_status_eq_ite statuses

/-- C2 counterexample: a status list containing the non-OPTIMAL engine
status UNKNOWN is nonetheless aggregated to OPTIMAL, so the overall
status does not surface every non-OPTIMAL engine status. -/
theorem aggregate_status_upgrades_unknown :
    ("UNKNOWN" : String) ≠ "OPTIMAL" ∧ aggregate_status ["UNKNOWN"] = "OPTIMAL" := by
  exact ⟨by decide, by decide⟩

/-- C2 amended: the overall status is not OPTIMAL when some group status
is INFEASIBLE or FEASIBLE; engine statuses outside these two (such as
UNKNOWN after an exhausted time limit) are upgraded to OPTIMAL by the
aggregation. -/
theorem aggregate_status_not_optimal_of_infeasible_or_feasible
    (statuses : List String) (s : String) (hs : s ∈ statuses)
    (h : s = "INFEASIBLE" ∨ s = "FEASIBLE") :
    aggregate_status statuses ≠ "OPTIMAL" := by
  rw [aggregate_status_eq_ite]
  rcases h with h | h
  · rw [if_pos (h ▸ hs)]
    decide
  · by_cases h1 : "INFEASIBLE" ∈ statuses
    · rw [if_pos h1]
      decide
    · rw [if_neg h1, if_pos (h ▸ hs)]
      decide

/-- Witness for the amended C2 statement at a concrete input. -/
theorem aggregate_status_not_optimal_witness :
    ("FEASIBLE" ∈ ["FEASIBLE", "OPTIMAL"]) ∧ aggregate_status ["FEASIBLE", "OPTIMAL"] ≠ "OPTIMAL" :=
  ⟨by decide,
   aggregate_status_not_optimal_of_infeasible_or_feasible ["FEASIBLE", "OPTIMAL"] "FEASIBLE"
     (by decide) (Or.inr rfl)⟩

/-- C5: the mode-b transition weight equals
max(1, BASE - (gap + travel + missing-flag penalties)), with the two
missing-data penalties independent and additive, and every weight handed
to the objective is at least 1. -/
theorem compute_edge_weight_spec :
    (∀ e : SolverGroupEdge, compute_edge_weight e =
      max 1 (EDGE_BASE_WEIGHT - (e.gapMinutes + e.travelMinutes
        + (if e.missingTravel = some true then MISSING_TRAVEL_PENALTY else 0)
        + (if e.missingLocation = some true then MISSING_LOCATION_PENALTY else 0)))) ∧
    (∀ e : SolverGroupEdge, 1 ≤ compute_edge_weight e) := by
  constructor
  · intro e
    simp only [compute_edge_weight]
    split <;> split <;> (congr 1) <;> ring
  · intro e
    simp only [compute_edge_weight]
    exact le_max_left 1 _

theorem lookup_mem {l : List (String × String)} {k v : String}
    (h : List.lookup k l = some v) : (k, v) ∈ l := by
  induction l with
  | nil => simp [List.lookup] at h
  | cons p rest ih =>
    obtain ⟨a, b⟩ := p
    simp only [List.lookup] at h
    split at h
    · next heq =>
      injection h with h
      subst h
      have hak : k = a := by simpa using heq
      subst hak
      exact List.mem_cons_self _ _
    · exact List.mem_cons_of_mem _ (ih h)

theorem walk_spec (succ : List (String × String)) (fuel : Nat) :
    ∀ (visited : List String) (cursor : String),
      (walk succ fuel visited cursor).2 = (walk succ fuel visited cursor).1.reverse ++ visited ∧
      (walk succ fuel visited cursor).1.Nodup ∧
      (∀ x ∈ (walk succ fuel visited cursor).1, x ∉ visited) ∧
      (∀ x ∈ (walk succ fuel visited cursor).1,
        x = cursor ∨ ∃ k, List.lookup k succ = some x) := by
  induction fuel with
  | zero =>
    intro visited cursor
    simp [walk]
  | succ n ih =>
    intro visited cursor
    by_cases hg : cursor = "" ∨ cursor ∈ visited
    · simp [walk, hg]
    · push_neg at hg
      cases hlk : List.lookup cursor succ with
      | none =>
        have hneg : ¬(cursor = "" ∨ cursor ∈ visited) := by
          push_neg
          exact hg
        have hwalk : walk succ (n + 1) visited cursor = ([cursor], cursor :: visited) := by
          simp only [walk, hlk, if_neg hneg]
        rw [hwalk]
        refine ⟨by simp, by simp, ?_, by simp⟩
        intro x hx
        simp only [List.mem_singleton] at hx
        subst hx
        exact hg.2
      | some nxt =>
        obtain ⟨ih1, ih2, ih3, ih4⟩ := ih (cursor :: visited) nxt
        have hneg : ¬(cursor = "" ∨ cursor ∈ visited) := by
          push_neg
          exact hg
        have hwalk : walk succ (n + 1) visited cursor =
            (cursor :: (walk succ n (cursor :: visited) nxt).1,
             (walk succ n (cursor :: visited) nxt).2) := by
          simp only [walk, hlk, if_neg hneg]
        rw [hwalk]
        refine ⟨?_, ?_, ?_, ?_⟩
        · rw [ih1]
          simp
        · refine List.nodup_cons.mpr ⟨fun hc => ?_, ih2⟩
          exact ih3 cursor hc (List.mem_cons_self _ _)
        · intro x hx
          rcases List.mem_cons.mp hx with rfl | hx
          · exact hg.2
          · exact fun hv => ih3 x hx (List.mem_cons_of_mem _ hv)
        · intro x hx
          rcases List.mem_cons.mp hx with rfl | hx
          · exact Or.inl rfl
          · rcases ih4 x hx with rfl | hk
            · exact Or.inr ⟨cursor, hlk⟩
            · exact Or.inr hk

theorem countP_not_mem_cons_lt (l : List String) (c : String) (visited : List String)
    (hc : c ∈ l) (hv : c ∉ visited) :
    l.countP (fun k => decide (k ∉ (c :: visited))) < l.countP (fun k => decide (k ∉ visited)) := by
  induction l with
  | nil => cases hc
  | cons x xs ih =>
    have hmono : xs.countP (fun k => decide (k ∉ (c :: visited))) ≤
        xs.countP (fun k => decide (k ∉ visited)) := by
      refine List.countP_mono_left fun a _ ha => ?_
      simp only [decide_eq_true_eq] at ha ⊢
      exact fun hmem => ha (List.mem_cons_of_mem _ hmem)
    by_cases hx : x = c
    · subst hx
      rw [List.countP_cons_of_neg, List.countP_cons_of_pos]
      · exact Nat.lt_succ_of_le hmono
      · simpa using hv
      · simp
    · rcases List.mem_cons.mp hc with rfl | hcxs
      · exact absurd rfl hx
      by_cases hxv : x ∈ visited
      · rw [List.countP_cons_of_neg, List.countP_cons_of_neg]
        · exact ih hcxs
        · simpa using hxv
        · simp only [decide_eq_true_eq, Decidable.not_not]
          exact List.mem_cons_of_mem _ hxv
      · rw [List.countP_cons_of_pos, List.countP_cons_of_pos]
        · exact Nat.succ_lt_succ (ih hcxs)
        · simpa using hxv
        · simp only [decide_eq_true_eq]
          intro hmem
          rcases List.mem_cons.mp hmem with h | h
          · exact hx h
          · exact hxv h

theorem walk_stable (succ : List (String × String)) :
    ∀ (f₁ f₂ : Nat) (visited : List String) (cursor : String),
      countUnvisited succ visited < f₁ → countUnvisited succ visited < f₂ →
      walk succ f₁ visited cursor = walk succ f₂ visited cursor := by
  intro f₁
  induction f₁ with
  | zero =>
    intro f₂ v c h1 _
    exact absurd h1 (Nat.not_lt_zero _)
  | succ n ih =>
    intro f₂ v c h1 h2
    cases f₂ with
    | zero => exact absurd h2 (Nat.not_lt_zero _)
    | succ m =>
      by_cases hg : c = "" ∨ c ∈ v
      · simp [walk, hg]
      · push_neg at hg
        have hneg : ¬(c = "" ∨ c ∈ v) := by
          push_neg
          exact hg
        cases hlk : List.lookup c succ with
        | none => simp only [walk, hlk, if_neg hneg]
        | some nxt =>
          have hck : c ∈ succ.map Prod.fst := by
            have hm := lookup_mem hlk
            exact List.mem_map_of_mem Prod.fst hm
          have hlt : countUnvisited succ (c :: v) < countUnvisited succ v := by
            unfold countUnvisited
            exact countP_not_mem_cons_lt _ c v hck hg.2
          have hrec := ih m (c :: v) nxt (by omega) (by omega)
          simp only [walk, hlk, if_neg hneg, hrec]

theorem firstPass_spec (succ pred : List (String × String)) (fuel : Nat) :
    ∀ (ids visited : List String) (duties : List (List String)),
      ∃ tail : List (List String),
        firstPass succ pred fuel ids visited duties =
          (duties ++ tail, tail.flatten.reverse ++ visited) ∧
        (∀ d ∈ tail, d ≠ []) ∧
        tail.flatten.Nodup ∧
        (∀ x ∈ tail.flatten, x ∉ visited) ∧
        (∀ x ∈ tail.flatten, x ∈ ids ∨ ∃ k, List.lookup k succ = some x) := by
  intro ids
  induction ids with
  | nil =>
    intro visited duties
    exact ⟨[], by simp [firstPass], by simp, by simp, by simp, by simp⟩
  | cons aid rest ih =>
    intro visited duties
    by_cases h1 : aid ∈ visited
    · obtain ⟨tail, he, hne, hnd, hnv, hmem⟩ := ih visited duties
      refine ⟨tail, ?_, hne, hnd, hnv, fun x hx => (hmem x hx).imp (List.mem_cons_of_mem _) id⟩
      simpa [firstPass, h1] using he
    · by_cases h2 : (List.lookup aid pred).isSome
      · obtain ⟨tail, he, hne, hnd, hnv, hmem⟩ := ih visited duties
        refine ⟨tail, ?_, hne, hnd, hnv, fun x hx => (hmem x hx).imp (List.mem_cons_of_mem _) id⟩
        simpa [firstPass, h1, h2] using he
      · obtain ⟨hw1, hw2, hw3, hw4⟩ := walk_spec succ fuel visited aid
        obtain ⟨tail, he, hne, hnd, hnv, hmem⟩ :=
          ih (walk succ fuel visited aid).2
            (if (walk succ fuel visited aid).1.isEmpty then duties
             else duties ++ [(walk succ fuel visited aid).1])
        have hstep : firstPass succ pred fuel (aid :: rest) visited duties =
            firstPass succ pred fuel rest (walk succ fuel visited aid).2
              (if (walk succ fuel visited aid).1.isEmpty then duties
               else duties ++ [(walk succ fuel visited aid).1]) := by
          simp [firstPass, h1, h2]
        refine ⟨(if (walk succ fuel visited aid).1.isEmpty then []
                 else [(walk succ fuel visited aid).1]) ++ tail, ?_, ?_, ?_, ?_, ?_⟩
        · rw [hstep, he]
          by_cases hp : (walk succ fuel visited aid).1.isEmpty
          · have hpe : (walk succ fuel visited aid).1 = [] := List.isEmpty_iff.mp hp
            simp [hp, hw1, hpe]
          · simp only [Bool.not_eq_true] at hp
            rw [hw1]
            simp [hp, List.append_assoc]
        · intro d hd
          rcases List.mem_append.mp hd with hd | hd
          · by_cases hp : (walk succ fuel visited aid).1.isEmpty
            · simp [hp] at hd
            · simp only [Bool.not_eq_true] at hp
              simp only [hp, Bool.false_eq_true, if_false, List.mem_singleton] at hd
              subst hd
              intro hcon
              rw [hcon] at hp
              simp at hp
          · exact hne d hd
        · rw [List.flatten_append]
          refine List.nodup_append.mpr ⟨?_, hnd, ?_⟩
          · by_cases hp : (walk succ fuel visited aid).1.isEmpty
            · simp [hp]
            · simp only [Bool.not_eq_true] at hp
              simpa [hp] using hw2
          · intro x hx hx2
            have hxw : x ∈ (walk succ fuel visited aid).1 := by
              by_cases hp : (walk succ fuel visited aid).1.isEmpty
              · simp [hp] at hx
              · simp only [Bool.not_eq_true] at hp
                simpa [hp] using hx
            have hxnv := hnv x hx2
            rw [hw1] at hxnv
            exact hxnv (List.mem_append.mpr (Or.inl (List.mem_reverse.mpr hxw)))
        · intro x hx
          rw [List.flatten_append] at hx
          rcases List.mem_append.mp hx with hx | hx
          · have hxw : x ∈ (walk succ fuel visited aid).1 := by
              by_cases hp : (walk succ fuel visited aid).1.isEmpty
              · simp [hp] at hx
              · simp only [Bool.not_eq_true] at hp
                simpa [hp] using hx
            exact hw3 x hxw
          · intro hv
            have hxnv := hnv x hx
            rw [hw1] at hxnv
            exact hxnv (List.mem_append.mpr (Or.inr hv))
        · intro x hx
          rw [List.flatten_append] at hx
          rcases List.mem_append.mp hx with hx | hx
          · have hxw : x ∈ (walk succ fuel visited aid).1 := by
              by_cases hp : (walk succ fuel visited aid).1.isEmpty
              · simp [hp] at hx
              · simp only [Bool.not_eq_true] at hp
                simpa [hp] using hx
            rcases hw4 x hxw with rfl | hk
            · exact Or.inl (List.mem_cons_self _ _)
            · exact Or.inr hk
          · exact (hmem x hx).imp (List.mem_cons_of_mem _) id

theorem secondPass_spec :
    ∀ (ids visited : List String) (duties : List (List String)),
      ∃ extra : List (List String),
        secondPass ids visited duties = duties ++ extra ∧
        (∀ d ∈ extra, d ≠ []) ∧
        extra.flatten.Nodup ∧
        (∀ x, x ∈ extra.flatten ↔ (x ∈ ids ∧ x ∉ visited)) := by
  intro ids
  induction ids with
  | nil =>
    intro visited duties
    exact ⟨[], by simp [secondPass], by simp, by simp, by simp⟩
  | cons aid rest ih =>
    intro visited duties
    by_cases h : aid ∈ visited
    · obtain ⟨extra, he, hne, hnd, hiff⟩ := ih visited duties
      refine ⟨extra, by simpa [secondPass, h] using he, hne, hnd, fun x => ?_⟩
      rw [hiff x]
      constructor
      · rintro ⟨hx, hxv⟩
        exact ⟨List.mem_cons_of_mem _ hx, hxv⟩
      · rintro ⟨hx, hxv⟩
        rcases List.mem_cons.mp hx with rfl | hx
        · exact absurd h hxv
        · exact ⟨hx, hxv⟩
    · obtain ⟨extra, he, hne, hnd, hiff⟩ := ih (aid :: visited) (duties ++ [[aid]])
      refine ⟨[aid] :: extra, ?_, ?_, ?_, fun x => ?_⟩
      · have hstep : secondPass (aid :: rest) visited duties =
            secondPass rest (aid :: visited) (duties ++ [[aid]]) := by
          simp [secondPass, h]
        rw [hstep, he]
        simp
      · intro d hd
        rcases List.mem_cons.mp hd with rfl | hd
        · simp
        · exact hne d hd
      · have hnotin : aid ∉ extra.flatten := fun hc => ((hiff aid).mp hc).2 (List.mem_cons_self _ _)
        simpa using List.nodup_cons.mpr ⟨hnotin, hnd⟩
      · simp only [List.flatten_cons, List.singleton_append, List.mem_cons]
        constructor
        · rintro (rfl | hx)
          · exact ⟨Or.inl rfl, h⟩
          · obtain ⟨hxr, hxv⟩ := (hiff x).mp hx
            exact ⟨Or.inr hxr, fun hv => hxv (List.mem_cons_of_mem _ hv)⟩
        · rintro ⟨hx, hxv⟩
          by_cases hxa : x = aid
          · exact Or.inl hxa
          · rcases hx with rfl | hxr
            · exact absurd rfl hxa
            · refine Or.inr ((hiff x).mpr ⟨hxr, fun hv => ?_⟩)
              rcases List.mem_cons.mp hv with rfl | hv
              · exact hxa rfl
              · exact hxv hv

theorem build_duties_core (ids : List String) (sel : List SolverGroupEdge) :
    (∀ d ∈ build_duties ids sel, d ≠ []) ∧
    (build_duties ids sel).flatten.Nodup ∧
    (∀ x ∈ ids, x ∈ (build_duties ids sel).flatten) ∧
    (∀ x ∈ (build_duties ids sel).flatten, x ∈ ids ∨ x ∈ sel.map SolverGroupEdge.toId) := by
  obtain ⟨tail, he, hne, hnd, hnv, hmem⟩ :=
    firstPass_spec (succOf sel) (predOf sel) (sel.length + 1) ids [] []
  obtain ⟨extra, he2, hne2, hnd2, hiff⟩ := secondPass_spec ids (tail.flatten.reverse ++ []) tail
  have hbd : build_duties ids sel = tail ++ extra := by
    unfold build_duties build_dutiesAux
    rw [he]
    simpa using he2
  have hrevmem : ∀ x, x ∈ tail.flatten.reverse ++ ([] : List String) ↔ x ∈ tail.flatten := by
    intro x
    simp
  have hsucc_val : ∀ x, (∃ k, List.lookup k (succOf sel) = some x) →
      x ∈ sel.map SolverGroupEdge.toId := by
    rintro x ⟨k, hk⟩
    have hmem2 := lookup_mem hk
    unfold succOf at hmem2
    rw [List.mem_reverse] at hmem2
    obtain ⟨e, hesel, hpair⟩ := List.mem_map.mp hmem2
    have hx : e.toId = x := congrArg Prod.snd hpair
    exact List.mem_map.mpr ⟨e, hesel, hx⟩
  rw [hbd]
  refine ⟨?_, ?_, ?_, ?_⟩
  · intro d hd
    rcases List.mem_append.mp hd with hd | hd
    · exact hne d hd
    · exact hne2 d hd
  · rw [List.flatten_append]
    refine List.nodup_append.mpr ⟨hnd, hnd2, ?_⟩
    intro x hx hx2
    have hx2v := ((hiff x).mp hx2).2
    exact hx2v ((hrevmem x).mpr hx)
  · intro x hx
    rw [List.flatten_append, List.mem_append]
    by_cases hxt : x ∈ tail.flatten
    · exact Or.inl hxt
    · refine Or.inr ((hiff x).mpr ⟨hx, fun hv => hxt ((hrevmem x).mp hv)⟩)
  · intro x hx
    rw [List.flatten_append] at hx
    rcases List.mem_append.mp hx with hx | hx
    · rcases hmem x hx with h | h
      · exact Or.inl h
      · exact Or.inr (hsucc_val x h)
    · exact Or.inl ((hiff x).mp hx).1

theorem firstPass_stable (succ pred : List (String × String)) (f₁ f₂ : Nat)
    (h₁ : succ.length < f₁) (h₂ : succ.length < f₂) :
    ∀ (ids visited : List String) (duties : List (List String)),
      firstPass succ pred f₁ ids visited duties = firstPass succ pred f₂ ids visited duties := by
  intro ids
  induction ids with
  | nil =>
    intro v d
    simp [firstPass]
  | cons aid rest ih =>
    intro v d
    by_cases hv : aid ∈ v
    · simp [firstPass, hv, ih]
    · by_cases hp : (List.lookup aid pred).isSome
      · simp [firstPass, hv, hp, ih]
      · have hcount : countUnvisited succ v ≤ succ.length := by
          unfold countUnvisited
          refine le_trans (List.countP_le_length _) ?_
          simp
        have hw : walk succ f₁ v aid = walk succ f₂ v aid :=
          walk_stable succ f₁ f₂ v aid (by omega) (by omega)
        simp [firstPass, hv, hp, hw, ih]

/-- C1: for every duplicate-free activity id list and every selected
transition set whose endpoints all lie in that id list (true of any
selection returned by the engine, since decision variables exist only
for transitions that passed the endpoint filter), the duties produced by
chain reconstruction partition the id set: no duty is empty and the
concatenation of all duties is a permutation of the id list, so every id
appears in exactly one duty and none is repeated or dropped. -/
theorem build_duties_partition (ids : List String) (sel : List SolverGroupEdge)
    (hnodup : ids.Nodup)
    (hends : ∀ e ∈ sel, e.fromId ∈ ids ∧ e.toId ∈ ids) :
    (∀ d ∈ build_duties ids sel, d ≠ []) ∧
    List.Perm (build_duties ids sel).flatten ids := by
  obtain ⟨h1, h2, h3, h4⟩ := build_duties_core ids sel
  refine ⟨h1, (List.perm_ext_iff_of_nodup h2 hnodup).2 fun x => ⟨fun hx => ?_, h3 x⟩⟩
  rcases h4 x hx with h | h
  · exact h
  · obtain ⟨e, hesel, rfl⟩ := List.mem_map.mp h
    exact (hends e hesel).2

/-- Witness for C1 at a concrete input. -/
theorem build_duties_partition_witness :
    ((["a", "b", "c"] : List String).Nodup ∧
      (∀ e ∈ [SolverGroupEdge.mk "a" "b" 3 2 none none],
        e.fromId ∈ ["a", "b", "c"] ∧ e.toId ∈ ["a", "b", "c"])) ∧
    ((∀ d ∈ build_duties ["a", "b", "c"] [SolverGroupEdge.mk "a" "b" 3 2 none none], d ≠ []) ∧
      List.Perm (build_duties ["a", "b", "c"] [SolverGroupEdge.mk "a" "b" 3 2 none none]).flatten
        ["a", "b", "c"]) :=
  ⟨⟨by decide, by decide⟩, build_duties_partition _ _ (by decide) (by decide)⟩

/-- C10: chain reconstruction terminates on every finite input.  The
while loop of the source is modelled with fuel; enlarging the fuel
beyond the value used by `build_duties` never changes the result, so the
fuelled function computes the limit of the loop.  Moreover each activity
id is appended to at most one duty even when the selected transitions
form directed cycles, every id of the input list still appears, and in
the concrete two-cycle (two activities that are each other successor)
both cycle members are emitted as singleton duties. -/
theorem build_duties_terminates :
    (∀ (ids : List String) (sel : List SolverGroupEdge) (extra : Nat),
      build_dutiesAux (sel.length + 1 + extra) ids sel = build_duties ids sel) ∧
    (∀ (ids : List String) (sel : List SolverGroupEdge),
      (build_duties ids sel).flatten.Nodup) ∧
    (∀ (ids : List String) (sel : List SolverGroupEdge) (a : String),
      a ∈ ids → a ∈ (build_duties ids sel).flatten) ∧
    build_duties ["a", "b"]
      [SolverGroupEdge.mk "a" "b" 5 5 none none, SolverGroupEdge.mk "b" "a" 5 5 none none] =
      [["a"], ["b"]] := by
  refine ⟨?_, fun ids sel => (build_duties_core ids sel).2.1,
    fun ids sel a ha => (build_duties_core ids sel).2.2.1 a ha, by decide⟩
  intro ids sel extra
  unfold build_duties build_dutiesAux
  have hlen : (succOf sel).length = sel.length := by simp [succOf]
  rw [firstPass_stable (succOf sel) (predOf sel) (sel.length + 1 + extra) (sel.length + 1)
    (by rw [hlen]; omega) (by rw [hlen]; omega)]

/-- Witness for C10 at a concrete input (third component has a
hypothesis). -/
theorem build_duties_terminates_witness :
    ("a" ∈ (["a", "b"] : List String)) ∧ "a" ∈ (build_duties ["a", "b"] []).flatten :=
  ⟨by decide, build_duties_terminates.2.2.1 ["a", "b"] [] "a" (by decide)⟩

theorem insertActivity_perm (x : SolverGroupActivity) (l : List SolverGroupActivity) :
    List.Perm (insertActivity x l) (x :: l) := by
  induction l with
  | nil => simp [insertActivity]
  | cons y ys ih =>
    by_cases h : activityLt y x
    · simp only [insertActivity, if_pos h]
      exact (List.Perm.cons y ih).trans (List.Perm.swap x y ys)
    · simp [insertActivity, h]

theorem sortActivities_perm (l : List SolverGroupActivity) :
    List.Perm (sortActivities l) l := by
  induction l with
  | nil => simp [sortActivities]
  | cons x xs ih =>
    exact (insertActivity_perm x (sortActivities xs)).trans (List.Perm.cons x ih)

theorem insertActivity_sorted (x : SolverGroupActivity) (l : List SolverGroupActivity)
    (h : List.Pairwise (fun a b => activityLt b a = false) l) :
    List.Pairwise (fun a b => activityLt b a = false) (insertActivity x l) := by
  induction l with
  | nil => simp [insertActivity]
  | cons y ys ih =>
    obtain ⟨hy, hys⟩ := List.pairwise_cons.mp h
    by_cases hlt : activityLt y x
    · simp only [insertActivity, if_pos hlt]
      refine List.pairwise_cons.mpr ⟨?_, ih hys⟩
      intro b hb
      have hmem : b ∈ x :: ys := (insertActivity_perm x ys).subset hb
      rcases List.mem_cons.mp hmem with rfl | hbys
      · simp only [activityLt, decide_eq_true_eq] at hlt
        simp only [activityLt, decide_eq_false_iff_not]
        exact lt_asymm hlt
      · exact hy b hbys
    · simp only [insertActivity, if_neg hlt]
      refine List.pairwise_cons.mpr ⟨?_, h⟩
      intro b hb
      rcases List.mem_cons.mp hb with rfl | hbys
      · simpa using hlt
      · have h1 : ¬ akey y < akey x := by simpa [activityLt] using hlt
        have h2 : ¬ akey b < akey y := by simpa [activityLt] using hy b hbys
        have h3 : ¬ akey b < akey x :=
          not_lt.mpr (le_trans (not_lt.mp h1) (not_lt.mp h2))
        simpa [activityLt] using h3

theorem sortActivities_sorted (l : List SolverGroupActivity) :
    List.Pairwise (fun a b => activityLt b a = false) (sortActivities l) := by
  induction l with
  | nil => simp [sortActivities]
  | cons x xs ih => exact insertActivity_sorted x (sortActivities xs) ih

/-- C6: for every engine behaviour, a mode-b group with at least one
activity and no transitions yields exactly one singleton duty per
activity in canonical ascending (startMs, endMs, id) order, zero total
and zero selected decision variables (nothing is ever handed to the
engine), and status OPTIMAL; the duty count equals the activity count. -/
theorem solve_group_no_edges (engine : GroupModel → EngineOutcome) (group : SolverGroup)
    (options : SolverOptions) (ha : group.activities ≠ []) (he : group.edges = []) :
    solve_group engine group options =
      ((sortActivities group.activities).map (fun a => [a.id]), 0, 0, "OPTIMAL") ∧
    (solve_group engine group options).1.length = group.activities.length ∧
    List.Pairwise (fun a b => activityLt b a = false) (sortActivities group.activities) ∧
    List.Perm (sortActivities group.activities) group.activities := by
  have hae : group.activities.isEmpty = false := by
    cases hact : group.activities with
    | nil => exact absurd hact ha
    | cons x xs => rfl
  have hee : group.edges.isEmpty = true := by rw [he]; rfl
  have heq : solve_group engine group options =
      ((sortActivities group.activities).map (fun a => [a.id]), 0, 0, "OPTIMAL") := by
    unfold solve_group
    rw [hae, hee]
    simp [singletonDuties, List.map_map]
  refine ⟨heq, ?_, sortActivities_sorted _, sortActivities_perm _⟩
  rw [heq]
  simp only [List.length_map]
  exact (sortActivities_perm group.activities).length_eq

/-- Witness for C6 at a concrete input. -/
theorem solve_group_no_edges_witness :
    (([⟨"b", 10, 20⟩, ⟨"a", 0, 5⟩] : List SolverGroupActivity) ≠ [] ∧
      ([] : List SolverGroupEdge) = []) ∧
    (solve_group (fun _ => ⟨"OPTIMAL", true, fun _ => false⟩)
        ⟨"g1", "o1", "duty", "d1", [⟨"b", 10, 20⟩, ⟨"a", 0, 5⟩], []⟩ {} =
      ((sortActivities [⟨"b", 10, 20⟩, ⟨"a", 0, 5⟩]).map (fun a => [a.id]), 0, 0, "OPTIMAL") ∧
     (solve_group (fun _ => ⟨"OPTIMAL", true, fun _ => false⟩)
        ⟨"g1", "o1", "duty", "d1", [⟨"b", 10, 20⟩, ⟨"a", 0, 5⟩], []⟩ {}).1.length =
        ([⟨"b", 10, 20⟩, ⟨"a", 0, 5⟩] : List SolverGroupActivity).length ∧
     List.Pairwise (fun a b => activityLt b a = false)
        (sortActivities [⟨"b", 10, 20⟩, ⟨"a", 0, 5⟩]) ∧
     List.Perm (sortActivities [⟨"b", 10, 20⟩, ⟨"a", 0, 5⟩])
        [⟨"b", 10, 20⟩, ⟨"a", 0, 5⟩]) :=
  ⟨⟨by decide, rfl⟩, solve_group_no_edges _ _ _ (by decide) rfl⟩

/-- C9: a mode-b transition whose fromId or toId is not in the activity
id set of its group is silently dropped: removing it from the edge list
changes nothing — no decision variable, no constraint or objective
contribution, no stats contribution, no status change, no error. -/
theorem solve_group_drops_dangling (engine : GroupModel → EngineOutcome) (group : SolverGroup)
    (options : SolverOptions) (e : SolverGroupEdge) (pre post : List SolverGroupEdge)
    (hd : e.fromId ∉ group.activities.map SolverGroupActivity.id ∨
          e.toId ∉ group.activities.map SolverGroupActivity.id) :
    solve_group engine { group with edges := pre ++ e :: post } options =
    solve_group engine { group with edges := pre ++ post } options := by
  by_cases hae : group.activities.isEmpty
  · simp [solve_group, hae]
  · simp only [Bool.not_eq_true] at hae
    have hmemiff : ∀ s : String,
        s ∈ (sortActivities group.activities).map SolverGroupActivity.id ↔
        s ∈ group.activities.map SolverGroupActivity.id := by
      intro s
      exact ((sortActivities_perm group.activities).map SolverGroupActivity.id).mem_iff
    have hpe : (decide (e.fromId ∈ (sortActivities group.activities).map SolverGroupActivity.id) &&
        decide (e.toId ∈ (sortActivities group.activities).map SolverGroupActivity.id)) = false := by
      rcases hd with h | h
      · have hni : ¬ e.fromId ∈ (sortActivities group.activities).map SolverGroupActivity.id :=
          fun hc => h ((hmemiff _).mp hc)
        simp [hni]
      · have hni : ¬ e.toId ∈ (sortActivities group.activities).map SolverGroupActivity.id :=
          fun hc => h ((hmemiff _).mp hc)
        simp [hni]
    have hfilter : (pre ++ e :: post).filter
          (fun ed => decide (ed.fromId ∈ (sortActivities group.activities).map SolverGroupActivity.id) &&
            decide (ed.toId ∈ (sortActivities group.activities).map SolverGroupActivity.id)) =
        (pre ++ post).filter
          (fun ed => decide (ed.fromId ∈ (sortActivities group.activities).map SolverGroupActivity.id) &&
            decide (ed.toId ∈ (sortActivities group.activities).map SolverGroupActivity.id)) := by
      simp only [List.filter_append, List.filter_cons, hpe]
      simp
    cases hpp : pre ++ post with
    | nil =>
      obtain ⟨hpre, hpost⟩ := List.append_eq_nil.mp hpp
      subst hpre
      subst hpost
      have hfe : ([e].filter
          (fun ed => decide (ed.fromId ∈ (sortActivities group.activities).map SolverGroupActivity.id) &&
            decide (ed.toId ∈ (sortActivities group.activities).map SolverGroupActivity.id))) = [] := by
        simp only [List.filter_cons, hpe, List.filter_nil, Bool.false_eq_true, if_false]
      simp only [solve_group, hae, List.nil_append, Bool.false_eq_true, if_false,
        List.isEmpty_cons, List.isEmpty_nil, if_true]
      rw [hfe]
      simp only [solve_group_core, List.isEmpty_nil, if_true]
    | cons x xs =>
      have h1 : (pre ++ e :: post).isEmpty = false := by
        cases pre <;> rfl
      simp only [solve_group, hae, h1, Bool.false_eq_true, if_false, List.isEmpty_cons]
      rw [← hpp, hfilter]

/-- Witness for C9 at a concrete input. -/
theorem solve_group_drops_dangling_witness :
    (("x" : String) ∉ ([⟨"a", 0, 1⟩] : List SolverGroupActivity).map SolverGroupActivity.id ∨
      ("a" : String) ∉ ([⟨"a", 0, 1⟩] : List SolverGroupActivity).map SolverGroupActivity.id) ∧
    solve_group (fun _ => ⟨"OPTIMAL", true, fun _ => false⟩)
        ⟨"g1", "o1", "duty", "d1", [⟨"a", 0, 1⟩], [] ++ SolverGroupEdge.mk "x" "a" 1 1 none none :: []⟩ {} =
      solve_group (fun _ => ⟨"OPTIMAL", true, fun _ => false⟩)
        ⟨"g1", "o1", "duty", "d1", [⟨"a", 0, 1⟩], [] ++ []⟩ {} :=
  ⟨Or.inl (by decide),
   solve_group_drops_dangling (fun _ => ⟨"OPTIMAL", true, fun _ => false⟩)
     ⟨"g1", "o1", "duty", "d1", [⟨"a", 0, 1⟩], []⟩ {} (SolverGroupEdge.mk "x" "a" 1 1 none none)
     [] [] (Or.inl (by decide))⟩

theorem solve_candidates_eq (out : CandOutcome) (request : SolverRequest)
    (hne : request.candidates.isEmpty = false) :
    solve_candidates out request =
      { summary := build_summary out.statusName
          (if out.ok then
            ((request.candidates.enum).filter (fun p => out.assignment p.1)).map (fun p => p.2.id)
          else []).length request.candidates.length,
        selectedIds :=
          (if out.ok then
            ((request.candidates.enum).filter (fun p => out.assignment p.1)).map (fun p => p.2.id)
          else []),
        score :=
          if (if out.ok then
              ((request.candidates.enum).filter (fun p => out.assignment p.1)).map (fun p => p.2.id)
            else []).isEmpty then none
          else some out.objective,
        status := out.statusName,
        stats := ⟨request.candidates.length,
          (if out.ok then
            ((request.candidates.enum).filter (fun p => out.assignment p.1)).map (fun p => p.2.id)
          else []).length,
          ((request.candidates.map candKey).dedup).length⟩ } := by
  simp only [solve_candidates, hne, Bool.false_eq_true, if_false]

/-- C8 counterexample: for the empty candidate list the response carries
a null score (the optional field stays absent), not the integer zero, so
the claim stating a zero score fails at this concrete input, while the
rest of the claimed shape holds. -/
theorem solve_candidates_empty_counterexample :
    (solve_candidates ⟨"OPTIMAL", true, fun _ => false, 0⟩
        ⟨"rs", "v1", [], none, {}⟩).score ≠ some 0 ∧
    (solve_candidates ⟨"OPTIMAL", true, fun _ => false, 0⟩
        ⟨"rs", "v1", [], none, {}⟩).score = none := by
  exact ⟨by decide, by decide⟩

/-- C8 amended: for the empty candidate list in mode a the core does not
raise: it returns status NO_CANDIDATES, an empty selectedIds list, a
null (absent) score — not the integer zero — and stats with
totalCandidates = 0, selectedCandidates = 0, groupCount = 0. -/
theorem solve_candidates_empty (out : CandOutcome) (request : SolverRequest)
    (h : request.candidates = []) :
    solve_candidates out request =
      { summary := "No candidates provided.", selectedIds := [], score := none,
        status := "NO_CANDIDATES", stats := ⟨0, 0, 0⟩ } := by
  have he : request.candidates.isEmpty = true := by rw [h]; rfl
  simp [solve_candidates, he]

/-- Witness for the amended C8 statement at a concrete input. -/
theorem solve_candidates_empty_witness :
    (([] : List SolverCandidate) = []) ∧
    solve_candidates ⟨"UNKNOWN", false, fun _ => false, 0⟩ ⟨"rs", "v1", [], none, {}⟩ =
      { summary := "No candidates provided.", selectedIds := [], score := none,
        status := "NO_CANDIDATES", stats := ⟨0, 0, 0⟩ } :=
  ⟨rfl, solve_candidates_empty ⟨"UNKNOWN", false, fun _ => false, 0⟩
    ⟨"rs", "v1", [], none, {}⟩ rfl⟩

/-- C7: mode-a candidates are grouped by the pair (serviceId, type),
with the serviceId read from the parameter bag and an opaque placeholder
when absent, and each group is constrained to at most
max(1, maxPerServiceType) selections.  Hence, for options with
maxPerServiceType at least 1 and for every engine valuation satisfying
the per-group constraints (the engine contract), the response selects no
more candidates than exist, selectedCandidates never exceeds
totalCandidates, and for every (serviceId, type) key the number of
selected candidates with that key is at most maxPerServiceType; the
selected ids are exactly the ids of the candidates whose variable is 1. -/
theorem solve_candidates_respects_limits (out : CandOutcome) (request : SolverRequest)
    (hm : 1 ≤ request.options.max_per_service_type)
    (hc : ∀ k : String × String,
      typeGroupCount request.candidates out.assignment k ≤
        (max 1 request.options.max_per_service_type).toNat) :
    (solve_candidates out request).selectedIds.length ≤ request.candidates.length ∧
    (solve_candidates out request).stats.selectedCandidates ≤
      (solve_candidates out request).stats.totalCandidates ∧
    (∀ c : SolverCandidate, dictGet c.params "serviceId" = PValue.pnone → serviceIdOf c = "_") ∧
    (∀ k : String × String,
      typeGroupCount request.candidates (fun i => out.ok && out.assignment i) k ≤
        request.options.max_per_service_type.toNat) ∧
    (out.ok = true → request.candidates ≠ [] →
      (solve_candidates out request).selectedIds =
        ((request.candidates.enum).filter (fun p => out.assignment p.1)).map (fun p => p.2.id)) := by
  have hsel : ∀ hne : request.candidates.isEmpty = false,
      (solve_candidates out request).selectedIds =
        (if out.ok then
          ((request.candidates.enum).filter (fun p => out.assignment p.1)).map (fun p => p.2.id)
        else []) := by
    intro hne
    rw [solve_candidates_eq out request hne]
  have hlen : (solve_candidates out request).selectedIds.length ≤ request.candidates.length := by
    by_cases hne : request.candidates.isEmpty
    · simp [solve_candidates, hne]
    · simp only [Bool.not_eq_true] at hne
      rw [hsel hne]
      by_cases hok : out.ok
      · simp only [hok, if_true, List.length_map]
        calc ((request.candidates.enum).filter (fun p => out.assignment p.1)).length
            ≤ (request.candidates.enum).length := List.length_filter_le _ _
          _ = request.candidates.length := List.enum_length
      · simp [hok]
  refine ⟨hlen, ?_, ?_, ?_, ?_⟩
  · by_cases hne : request.candidates.isEmpty
    · simp [solve_candidates, hne]
    · simp only [Bool.not_eq_true] at hne
      have hstats : (solve_candidates out request).stats.selectedCandidates =
          (solve_candidates out request).selectedIds.length := by
        rw [solve_candidates_eq out request hne]
      have htot : (solve_candidates out request).stats.totalCandidates =
          request.candidates.length := by
        rw [solve_candidates_eq out request hne]
      rw [hstats, htot]
      exact hlen
  · intro c h
    simp [serviceIdOf, h]
  · intro k
    by_cases hok : out.ok
    · have heq : typeGroupCount request.candidates (fun i => out.ok && out.assignment i) k =
          typeGroupCount request.candidates out.assignment k := by
        simp [typeGroupCount, hok]
      rw [heq]
      have hmax : max 1 request.options.max_per_service_type =
          request.options.max_per_service_type := max_eq_right hm
      have hck := hc k
      rw [hmax] at hck
      exact hck
    · have hokf : out.ok = false := by
        simpa using hok
      have heq : typeGroupCount request.candidates (fun i => out.ok && out.assignment i) k = 0 := by
        simp [typeGroupCount, hokf]
      rw [heq]
      exact Nat.zero_le _
  · intro hok hne2
    have hne : request.candidates.isEmpty = false := by
      cases hcand : request.candidates with
      | nil => exact absurd hcand hne2
      | cons x xs => rfl
    rw [hsel hne, if_pos hok]

theorem c7_hc : ∀ k : String × String,
    typeGroupCount c7req.candidates c7out.assignment k ≤
      (max 1 c7req.options.max_per_service_type).toNat := by
  intro k
  simp [typeGroupCount, c7out, c7req]

/-- Witness for C7 at a concrete input. -/
theorem solve_candidates_respects_limits_witness :
    (1 ≤ c7req.options.max_per_service_type ∧
      ∀ k : String × String,
        typeGroupCount c7req.candidates c7out.assignment k ≤
          (max 1 c7req.options.max_per_service_type).toNat) ∧
    ((solve_candidates c7out c7req).selectedIds.length ≤ c7req.candidates.length ∧
     (solve_candidates c7out c7req).stats.selectedCandidates ≤
       (solve_candidates c7out c7req).stats.totalCandidates ∧
     (∀ c : SolverCandidate, dictGet c.params "serviceId" = PValue.pnone → serviceIdOf c = "_") ∧
     (∀ k : String × String,
       typeGroupCount c7req.candidates (fun i => c7out.ok && c7out.assignment i) k ≤
         c7req.options.max_per_service_type.toNat) ∧
     (c7out.ok = true → c7req.candidates ≠ [] →
       (solve_candidates c7out c7req).selectedIds =
         ((c7req.candidates.enum).filter (fun p => c7out.assignment p.1)).map (fun p => p.2.id))) :=
  ⟨⟨by decide, c7_hc⟩, solve_candidates_respects_limits c7out c7req (by decide) c7_hc⟩
